import Mathlib

/-!
Formal model of the session/authorization and usage-governance subsystem of
the cover-letter assistant: invitation lookup, signed expiring session
credentials, sliding-window rate limiting, daily quota accounting, and the
diff-based preference-learning engine.

Modelling conventions:
* Wall-clock instants are naturals (seconds since an arbitrary epoch);
  differences are taken in `Int` so that "future" timestamps behave like
  Python's signed `timedelta` comparison.
* `datetime.isoformat` / `datetime.fromisoformat` is modelled by the
  injective decimal printer `isoformat` and its partial inverse
  `fromisoformat` (returns `none` on any malformed string, mirroring the
  `ValueError` that the Python code catches and converts to `False`).
* `hmac.new(key, data, sha256).hexdigest()` is an external cryptographic
  primitive; the model abstracts it as an arbitrary function
  `mac : String → String → String`, and theorems that depend on its
  cryptographic properties take those properties (hex output contains no
  separator; no collision between the two concrete signed payloads) as
  explicit hypotheses.
* JSON files are modelled as association lists (Python `dict` preserves
  insertion order; `d[k] = v` updates in place or appends).
* Calendar dates (the `%Y-%m-%d` keys of the daily-usage store) are
  modelled as naturals; the following calendar date of `d` is `d + 1`.
-/

/-! ### Generic list and string helpers -/

/-- Python `xs[-n:]`: the last `n` elements of a list. -/
def takeLast (n : Nat) (l : List α) : List α :=
  l.drop (l.length - n)

/-- Lookup in an association list (Python `dict.__getitem__` / `in`). -/
def alGet [DecidableEq κ] (l : List (κ × α)) (k : κ) : Option α :=
  match l with
  | [] => none
  | (k', v) :: rest => if k' = k then some v else alGet rest k

/-- Python `dict.get(k, d)`. -/
def alGetD [DecidableEq κ] (l : List (κ × α)) (k : κ) (d : α) : α :=
  (alGet l k).getD d

/-- Python `d[k] = v`: update in place if the key exists, else append. -/
def alSet [DecidableEq κ] (l : List (κ × α)) (k : κ) (v : α) : List (κ × α) :=
  match l with
  | [] => [(k, v)]
  | (k', v') :: rest => if k' = k then (k, v) :: rest else (k', v') :: alSet rest k v

/-- Python `str.lower()` (character-wise lowercasing over the string's
character list). -/
def pyLower (s : String) : String :=
  String.mk (s.data.map Char.toLower)

/-- Python `s[:n]` on a string (first `n` characters). -/
def pyTake (s : String) (n : Nat) : String :=
  String.mk (s.data.take n)

/-- Python `s.split(sep, 1)` on a character list: split at the first
occurrence of `c`, or `none` when `c` does not occur (in which case the
Python two-variable unpacking raises `ValueError`). -/
def splitFirstAux (c : Char) : List Char → Option (List Char × List Char)
  | [] => none
  | x :: xs =>
    if x = c then some ([], xs)
    else (splitFirstAux c xs).map (fun p => (x :: p.1, p.2))

/-- Python `s.split(sep, 1)` producing exactly two parts. -/
def splitFirst (s : String) (c : Char) : Option (String × String) :=
  (splitFirstAux c s.data).map (fun p => (String.mk p.1, String.mk p.2))

/-! ### Decimal timestamp serialization (model of `isoformat` / `fromisoformat`) -/

/-- Fueled digit accumulation (structural recursion so that terms reduce
inside the kernel; fuel `n` always suffices because `n / 10 < n`). -/
def toDecimalAux : Nat → Nat → List Char
  | 0, n => [Nat.digitChar n]
  | fuel + 1, n =>
    if n < 10 then [Nat.digitChar n]
    else toDecimalAux fuel (n / 10) ++ [Nat.digitChar (n % 10)]

/-- Decimal digits of `n`, most significant first. -/
def toDecimal (n : Nat) : List Char :=
  toDecimalAux n n

/-- Serialized form of a timestamp (model of `datetime.isoformat`). -/
def isoformat (n : Nat) : String :=
  String.mk (toDecimal n)

/-- Numeric value of a decimal digit character, `none` for non-digits. -/
def charVal (c : Char) : Option Nat :=
  if '0' ≤ c ∧ c ≤ '9' then some (c.toNat - '0'.toNat) else none

/-- Accumulating decimal parser. -/
def parseDecimalAux : List Char → Nat → Option Nat
  | [], acc => some acc
  | c :: cs, acc =>
    match charVal c with
    | none => none
    | some d => parseDecimalAux cs (acc * 10 + d)

/-- Parse a serialized timestamp (model of `datetime.fromisoformat`;
`none` models the `ValueError` raised on malformed input). -/
def fromisoformat (s : String) : Option Nat :=
  match s.data with
  | [] => none
  | cs => parseDecimalAux cs 0

/-! ### Session Token Service (`create_session_token` / `verify_session_token`) -/

/-- Model of `create_session_token` from `app.py`: sign
`email ++ ":" ++ timestamp` with the secret and return
`signature ++ ":" ++ timestamp`. The keyed hash is the abstract `mac`. -/
def create_session_token (mac : String → String → String) (secret_key : String)
    (now : Nat) (email : String) : String :=
  let timestamp := isoformat now
  let data := email ++ ":" ++ timestamp
  mac secret_key data ++ ":" ++ timestamp

/-- Model of `verify_session_token` from `app.py`: split the token at the
first separator, parse the timestamp (any parse failure is caught and
yields `false`), reject when `now - timestamp > timeout_hours` hours,
otherwise recompute the signature over the token's own timestamp string and
compare. -/
def verify_session_token (mac : String → String → String) (secret_key : String)
    (timeout_hours : Nat) (now : Nat) (email : String) (token : String) : Bool :=
  match splitFirst token ':' with
  | none => false
  | some (token_hash, timestamp_str) =>
    match fromisoformat timestamp_str with
    | none => false
    | some timestamp =>
      if (now : Int) - timestamp > timeout_hours * 3600 then false
      else
        let data := email ++ ":" ++ timestamp_str
        token_hash = mac secret_key data

/-! ### Audit Log events -/

/-- An audit event as produced by `log_security_event` in
`security_utils.py` (timestamp and free-form details omitted: only the
event kind and identity are examined by the claims). -/
structure AuditEvent where
  event_type : String
  user_email : String
  deriving DecidableEq, Repr

/-! ### Rate Limiter (`check_rate_limit` in `security_utils.py`) -/

/-- Persisted per-action rate-limit store: identity → ordered list of
epoch-second timestamps. -/
abbrev RateData : Type := List (String × List Int)

/-- Model of `check_rate_limit` from `security_utils.py`. Input state is
the parsed contents of `rate_limits_{action}.json`; the result is the
admission decision, the persisted store after the call, and the audit
events emitted. On rejection the function returns before writing, so the
store passes through unchanged. -/
def check_rate_limit (now : Int) (user_email : String)
    (max_requests : Nat := 10) (time_window_minutes : Nat := 60)
    (rate_data : RateData) : Bool × RateData × List AuditEvent :=
  let user_requests := alGetD rate_data user_email []
  let cutoff_time := now - time_window_minutes * 60
  let user_requests := user_requests.filter (fun req => cutoff_time < req)
  if max_requests ≤ user_requests.length then
    (false, rate_data, [⟨"RATE_LIMIT_EXCEEDED", user_email⟩])
  else
    (true, alSet rate_data user_email (user_requests ++ [now]), [])

/-! ### Daily Quota Tracker (`security_utils.py`) -/

/-- Per-date map identity → count. -/
abbrev DayMap : Type := List (String × Nat)

/-- Persisted daily-usage store: date → (identity → count). -/
abbrev UsageStore : Type := List (Nat × DayMap)

/-- Result of `check_daily_cover_letter_limit` (the `reset_time` field,
a formatted midnight timestamp, is not modelled). -/
structure DailyLimitResult where
  allowed : Bool
  remaining : Nat
  used_today : Nat
  daily_limit : Nat
  deriving DecidableEq, Repr

/-- In-memory truncation step of `check_daily_cover_letter_limit`: keep
only the current date's map (both branches of the Python `if` produce
exactly this). -/
def truncate_usage (current_date : Nat) (usage_data : UsageStore) : UsageStore :=
  [(current_date, alGetD usage_data current_date [])]

/-- Model of `check_daily_cover_letter_limit` from `security_utils.py`.
The function reads the store, truncates a local copy to the current date,
and computes the quota status; it performs no file write, so the persisted
store (second component) passes through unchanged. -/
def check_daily_cover_letter_limit (current_date : Nat) (user_email : String)
    (daily_limit : Nat := 5) (store : UsageStore) : DailyLimitResult × UsageStore :=
  let usage_data := truncate_usage current_date store
  let today_usage := alGetD (alGetD usage_data current_date []) user_email 0
  let allowed := today_usage < daily_limit
  let remaining := max 0 (daily_limit - today_usage)
  ({ allowed := allowed, remaining := remaining,
     used_today := today_usage, daily_limit := daily_limit }, store)

/-- Model of `record_cover_letter_generation` from `security_utils.py`:
increment the identity's count under the current date (initializing maps
as needed) and persist; prior dates are left in the store untouched. -/
def record_cover_letter_generation (current_date : Nat) (user_email : String)
    (store : UsageStore) : Bool × UsageStore :=
  let day_map := alGetD store current_date []
  let current_count := alGetD day_map user_email 0
  (true, alSet store current_date (alSet day_map user_email (current_count + 1)))

/-! ### Invitation Registry (`load_invited_users` / `is_user_invited` in `app.py`) -/

/-- State of the backing `invited_users.json` file: absent, present but
unparseable, or parsed into a map whose keys are the invited addresses
(the per-user info records are irrelevant to the claims and omitted). -/
inductive InvitedStore where
  | absent
  | malformed
  | parsed (users : List String)
  deriving DecidableEq, Repr

/-- Model of `load_invited_users` from `app.py` (the Streamlit-secrets
merge is not modelled: in the modelled deployment no secrets block is
configured, which the code tolerates): an absent file yields the empty
map, a malformed file raises inside `try` and also yields the empty map. -/
def load_invited_users : InvitedStore → List String
  | .absent => []
  | .malformed => []
  | .parsed users => users

/-- Model of `is_user_invited` from `app.py`: case-insensitive membership
of the email among the store's keys. -/
def is_user_invited (store : InvitedStore) (email : String) : Bool :=
  (load_invited_users store).map (fun user_email => pyLower user_email)
    |>.contains (pyLower email)

/-! ### Word-level diff (`difflib.SequenceMatcher` over word lists)

`analyze_user_edits` in `app.py` runs CPython's
`difflib.SequenceMatcher(None, original_words, edited_words)` and walks its
opcodes. The matcher is embedded below for junk-free inputs shorter than
the autojunk threshold (200 elements), which covers every word list the
claims examine: `b2j` indexes every element of `b`, and the junk sets are
empty so the two junk-extension loops of `find_longest_match` never fire
(they are still included for fidelity). -/

/-- Ascending list of positions of `x` in `b` (the `b2j` table). -/
def b2j (b : List String) (x : String) : List Nat :=
  (List.range b.length).filter (fun j => b.getD j "" = x)

/-- A matching block `(besti, bestj, size)`. -/
structure MatchBlock where
  besti : Nat
  bestj : Nat
  size : Nat
  deriving DecidableEq, Repr

/-- Core dynamic-programming loop of `find_longest_match`: for each `i`,
rebuild `j2len` (length of the longest run of matches ending at `(i, j)`)
from the previous row and take the strictly larger blocks first found. -/
def flmCore (a b : List String) (alo ahi blo bhi : Nat) : MatchBlock :=
  let step := fun (acc : (Nat → Nat) × MatchBlock) (i : Nat) =>
    let j2len := acc.1
    let js := (b2j b (a.getD i "")).filter (fun j => blo ≤ j ∧ j < bhi)
    js.foldl
      (fun (acc2 : (Nat → Nat) × MatchBlock) (j : Nat) =>
        let k := (if j = 0 then 0 else j2len (j - 1)) + 1
        let newj2len := fun x => if x = j then k else acc2.1 x
        if acc2.2.size < k then (newj2len, ⟨i + 1 - k, j + 1 - k, k⟩)
        else (newj2len, acc2.2))
      ((fun _ => 0), acc.2)
  ((List.range' alo (ahi - alo)).foldl step ((fun _ => 0), ⟨alo, blo, 0⟩)).2

/-- First extension loop of `find_longest_match`: grow the block downward
while the immediately preceding elements match (with no junk the junk
guard is vacuous). The fuel is an upper bound on `besti`. -/
def extendLower (a b : List String) (alo blo : Nat) : Nat → MatchBlock → MatchBlock
  | 0, m => m
  | fuel + 1, m =>
    if alo < m.besti ∧ blo < m.bestj ∧
        a.getD (m.besti - 1) "" = b.getD (m.bestj - 1) "" then
      extendLower a b alo blo fuel ⟨m.besti - 1, m.bestj - 1, m.size + 1⟩
    else m

/-- Second extension loop of `find_longest_match`: grow the block upward
while the elements just past its end match. The fuel is an upper bound on
`ahi`. -/
def extendUpper (a b : List String) (ahi bhi : Nat) : Nat → MatchBlock → MatchBlock
  | 0, m => m
  | fuel + 1, m =>
    if m.besti + m.size < ahi ∧ m.bestj + m.size < bhi ∧
        a.getD (m.besti + m.size) "" = b.getD (m.bestj + m.size) "" then
      extendUpper a b ahi bhi fuel ⟨m.besti, m.bestj, m.size + 1⟩
    else m

/-- `SequenceMatcher.find_longest_match` on `a[alo:ahi]` × `b[blo:bhi]`. -/
def find_longest_match (a b : List String) (alo ahi blo bhi : Nat) : MatchBlock :=
  let m := flmCore a b alo ahi blo bhi
  let m := extendLower a b alo blo m.besti m
  extendUpper a b ahi bhi ahi m

/-- Recursive collection of matching blocks (CPython uses an explicit
queue and then sorts; in-order recursion yields the same sorted list).
The fuel dominates the recursion depth; `matching_blocks` supplies
`ahi + bhi + 1`, which suffices because each recursive call strictly
shrinks the rectangle. -/
def matchingBlocksAux (a b : List String) :
    Nat → Nat → Nat → Nat → Nat → List (Nat × Nat × Nat)
  | 0, _, _, _, _ => []
  | fuel + 1, alo, ahi, blo, bhi =>
    let m := find_longest_match a b alo ahi blo bhi
    if 0 < m.size then
      matchingBlocksAux a b fuel alo m.besti blo m.bestj
        ++ [(m.besti, m.bestj, m.size)]
        ++ matchingBlocksAux a b fuel (m.besti + m.size) ahi (m.bestj + m.size) bhi
    else []

/-- Adjacent-block merge and terminating sentinel of
`SequenceMatcher.get_matching_blocks`. -/
def mergeBlocks (la lb : Nat) (blocks : List (Nat × Nat × Nat)) : List (Nat × Nat × Nat) :=
  let final := blocks.foldl
    (fun (acc : List (Nat × Nat × Nat) × Nat × Nat × Nat) blk =>
      let (non_adjacent, i1, j1, k1) := acc
      let (i2, j2, k2) := blk
      if i1 + k1 = i2 ∧ j1 + k1 = j2 then (non_adjacent, i1, j1, k1 + k2)
      else if k1 ≠ 0 then (non_adjacent ++ [(i1, j1, k1)], i2, j2, k2)
      else (non_adjacent, i2, j2, k2))
    ([], 0, 0, 0)
  let base := if final.2.2.2 ≠ 0 then final.1 ++ [(final.2.1, final.2.2.1, final.2.2.2)] else final.1
  base ++ [(la, lb, 0)]

/-- `SequenceMatcher.get_matching_blocks`. -/
def get_matching_blocks (a b : List String) : List (Nat × Nat × Nat) :=
  mergeBlocks a.length b.length
    (matchingBlocksAux a b (a.length + b.length + 1) 0 a.length 0 b.length)

/-- Opcode tags of `SequenceMatcher.get_opcodes`. -/
inductive OpTag where
  | replace
  | delete
  | insert
  | equal
  deriving DecidableEq, Repr

/-- Walk of the matching blocks producing opcodes. -/
def getOpcodesAux : Nat → Nat → List (Nat × Nat × Nat) → List (OpTag × Nat × Nat × Nat × Nat)
  | _, _, [] => []
  | i, j, (ai, bj, size) :: rest =>
    let pre : List (OpTag × Nat × Nat × Nat × Nat) :=
      if i < ai ∧ j < bj then [(.replace, i, ai, j, bj)]
      else if i < ai then [(.delete, i, ai, j, bj)]
      else if j < bj then [(.insert, i, ai, j, bj)]
      else []
    let eq : List (OpTag × Nat × Nat × Nat × Nat) :=
      if 0 < size then [(.equal, ai, ai + size, bj, bj + size)] else []
    pre ++ eq ++ getOpcodesAux (ai + size) (bj + size) rest

/-- `SequenceMatcher.get_opcodes`. -/
def get_opcodes (a b : List String) : List (OpTag × Nat × Nat × Nat × Nat) :=
  getOpcodesAux 0 0 (get_matching_blocks a b)

/-! ### Preference Learning Engine (`analyze_user_edits` / `update_user_preferences_with_session_data` in `app.py`) -/

/-- Result of `analyze_user_edits`. -/
structure EditPatterns where
  removals : List String
  additions : List String
  replacements : List (String × String)
  deriving DecidableEq, Repr

/-- Accumulating pass of `splitWords` (the accumulator holds the current
word's characters in reverse). -/
def splitWordsAux : List Char → List Char → List String
  | [], acc => if acc = [] then [] else [String.mk acc.reverse]
  | c :: cs, acc =>
    if c.isWhitespace then
      if acc = [] then splitWordsAux cs []
      else String.mk acc.reverse :: splitWordsAux cs []
    else splitWordsAux cs (c :: acc)

/-- Python `str.split()` with no argument: split on whitespace runs,
discarding empty fragments. -/
def splitWords (s : String) : List String :=
  splitWordsAux s.data []

/-- Python `xs[i1:i2]`. -/
def pySlice (l : List α) (i1 i2 : Nat) : List α :=
  (l.drop i1).take (i2 - i1)

/-- Model of `analyze_user_edits` from `app.py`: word-tokenize both texts,
run the sequence matcher, and bucket the opcode spans into removals
(`delete`), additions (`insert`) and `{from, to}` replacement pairs
(`replace`; the covered words are joined with spaces). -/
def analyze_user_edits (original_text edited_text : String) : EditPatterns :=
  let original_words := splitWords original_text
  let edited_words := splitWords edited_text
  (get_opcodes original_words edited_words).foldl
    (fun pats op =>
      match op with
      | (.delete, i1, i2, _, _) =>
        { pats with removals := pats.removals ++ pySlice original_words i1 i2 }
      | (.insert, _, _, j1, j2) =>
        { pats with additions := pats.additions ++ pySlice edited_words j1 j2 }
      | (.replace, i1, i2, j1, j2) =>
        { pats with replacements := pats.replacements ++
            [(" ".intercalate (pySlice original_words i1 i2),
              " ".intercalate (pySlice edited_words j1 j2))] }
      | (.equal, _, _, _, _) => pats)
    ⟨[], [], []⟩

/-- A `job_application_history` entry as built by
`update_user_preferences_with_session_data`. -/
structure JobHistoryEntry where
  date : Nat
  job_company : String
  highlights_used : List String
  session_id : String
  deriving DecidableEq, Repr

/-- The per-identity preference profile (the fields the claims examine;
`writing_style`, `formatting_preferences` and `last_updated` are never
read or written by the modelled operations other than pass-through). -/
structure UserPreferences where
  preferred_highlights : List String
  commonly_removed_words : List String
  commonly_added_phrases : List String
  job_application_history : List JobHistoryEntry
  usage_count : Nat
  deriving DecidableEq, Repr

/-- The profile created by `get_default_user_preferences` (all lists
empty, usage count zero). -/
def get_default_user_preferences : UserPreferences :=
  ⟨[], [], [], [], 0⟩

/-- The history entry constructed inside
`update_user_preferences_with_session_data`: the job description is
truncated to 100 characters with an ellipsis when longer. -/
def mkJobEntry (now : Nat) (session_id : String) (highlights : List String)
    (job_description : String) : JobHistoryEntry :=
  { date := now,
    job_company :=
      if 100 < job_description.length then pyTake job_description 100 ++ "..."
      else job_description,
    highlights_used := highlights,
    session_id := session_id }

/-- Model of `update_user_preferences_with_session_data` from `app.py`:
merge new highlights (appending those not already present), when both
letters are nonempty and differ run the edit analysis and fold its
removals/additions into the capped, deduplicated pattern lists
(`list(set(xs[-50:]))`), append a history entry keeping the last 20, and
increment the usage count. `list(set(..))` enumerates in an unspecified
hash order; it is modelled by `List.dedup`, which preserves the elements
as a set and never exceeds the input length. -/
def update_user_preferences_with_session_data (now : Nat) (session_id : String)
    (highlights : List String) (original_letter edited_letter job_description : String)
    (preferences : UserPreferences) : UserPreferences :=
  let p1 := highlights.foldl
    (fun p highlight =>
      if highlight ∈ p.preferred_highlights then p
      else { p with preferred_highlights := p.preferred_highlights ++ [highlight] })
    preferences
  let p2 :=
    if original_letter ≠ "" ∧ edited_letter ≠ "" ∧ original_letter ≠ edited_letter then
      let edit_patterns := analyze_user_edits original_letter edited_letter
      { p1 with
        commonly_removed_words :=
          (takeLast 50 (p1.commonly_removed_words ++ edit_patterns.removals)).dedup,
        commonly_added_phrases :=
          (takeLast 50 (p1.commonly_added_phrases ++ edit_patterns.additions)).dedup }
    else p1
  let job_entry := mkJobEntry now session_id highlights job_description
  let p3 := { p2 with
    job_application_history := takeLast 20 (p2.job_application_history ++ [job_entry]) }
  { p3 with usage_count := p3.usage_count + 1 }

/-! ### Supporting lemmas -/

theorem takeLast_length_le (n : Nat) (l : List α) : (takeLast n l).length ≤ n := by
  rw [takeLast, List.length_drop]
  omega

theorem takeLast_all (n : Nat) (l : List α) (h : l.length ≤ n) : takeLast n l = l := by
  rw [takeLast]
  have : l.length - n = 0 := by omega
  rw [this, List.drop_zero]

theorem alGet_alSet_self [DecidableEq κ] (l : List (κ × α)) (k : κ) (v : α) :
    alGet (alSet l k v) k = some v := by
  induction l with
  | nil => simp [alGet, alSet]
  | cons hd tl ih =>
    obtain ⟨k0, v0⟩ := hd
    by_cases h : k0 = k
    · simp [alGet, alSet, h]
    · simp [alGet, alSet, h, ih]

theorem alGet_alSet_ne [DecidableEq κ] (l : List (κ × α)) (k k' : κ) (v : α)
    (h : k' ≠ k) : alGet (alSet l k v) k' = alGet l k' := by
  have hk : k ≠ k' := fun hh => h hh.symm
  induction l with
  | nil => simp [alGet, alSet, hk]
  | cons hd tl ih =>
    obtain ⟨k0, v0⟩ := hd
    by_cases h0 : k0 = k
    · subst h0
      simp [alGet, alSet, hk]
    · simp only [alSet, if_neg h0, alGet]
      by_cases h1 : k0 = k'
      · simp [h1]
      · simp [h1, ih]

theorem alGetD_alSet_self [DecidableEq κ] (l : List (κ × α)) (k : κ) (v d : α) :
    alGetD (alSet l k v) k d = v := by
  simp [alGetD, alGet_alSet_self]

theorem alGetD_alSet_ne [DecidableEq κ] (l : List (κ × α)) (k k' : κ) (v : α) (d : α)
    (h : k' ≠ k) : alGetD (alSet l k v) k' d = alGetD l k' d := by
  simp [alGetD, alGet_alSet_ne _ _ _ _ h]

theorem splitFirstAux_append (c : Char) (l r : List Char) (h : c ∉ l) :
    splitFirstAux c (l ++ c :: r) = some (l, r) := by
  induction l with
  | nil => simp [splitFirstAux]
  | cons x xs ih =>
    have hx : x ≠ c := fun hh => h (hh ▸ List.mem_cons_self x xs)
    have hxs : c ∉ xs := fun hh => h (List.mem_cons_of_mem x hh)
    simp [splitFirstAux, hx, ih hxs]

theorem splitFirst_append (sig rest : String) (h : ':' ∉ sig.data) :
    splitFirst (sig ++ ":" ++ rest) ':' = some (sig, rest) := by
  obtain ⟨l⟩ := sig
  obtain ⟨r⟩ := rest
  have hdata : ((String.mk l ++ ":" ++ String.mk r)).data = l ++ ':' :: r := by
    simp [String.data_append]
  simp only [splitFirst, hdata, splitFirstAux_append ':' l r h, Option.map_some']

theorem charVal_digitChar (d : Nat) (h : d < 10) :
    charVal (Nat.digitChar d) = some d := by
  interval_cases d <;> decide

theorem parseDecimalAux_append (l1 l2 : List Char) (acc : Nat) :
    parseDecimalAux (l1 ++ l2) acc =
      match parseDecimalAux l1 acc with
      | none => none
      | some m => parseDecimalAux l2 m := by
  induction l1 generalizing acc with
  | nil => simp [parseDecimalAux]
  | cons c cs ih =>
    simp only [List.cons_append, parseDecimalAux]
    cases charVal c with
    | none => simp
    | some d => simp [ih]

theorem parse_toDecimalAux (fuel n acc : Nat) (h : n ≤ fuel) :
    parseDecimalAux (toDecimalAux fuel n) acc =
      some (acc * 10 ^ (toDecimalAux fuel n).length + n) := by
  induction fuel generalizing n acc with
  | zero =>
    have hn : n = 0 := by omega
    subst hn
    simp [toDecimalAux, parseDecimalAux, charVal_digitChar 0 (by omega)]
  | succ fuel ih =>
    by_cases h10 : n < 10
    · simp [toDecimalAux, h10, parseDecimalAux, charVal_digitChar n h10]
    · have hdiv : n / 10 ≤ fuel := by
        have := Nat.div_lt_self (show 0 < n by omega) (show 1 < 10 by omega)
        omega
      simp only [toDecimalAux, if_neg h10]
      rw [parseDecimalAux_append, ih (n / 10) acc hdiv]
      have hmod : n % 10 < 10 := Nat.mod_lt _ (by omega)
      simp only [parseDecimalAux, charVal_digitChar (n % 10) hmod,
        List.length_append, List.length_cons, List.length_nil]
      have : (acc * 10 ^ (toDecimalAux fuel (n / 10)).length + n / 10) * 10 + n % 10 =
          acc * 10 ^ ((toDecimalAux fuel (n / 10)).length + 1) + n := by
        rw [pow_succ]
        have := Nat.div_add_mod n 10
        ring_nf
        omega
      rw [this]

theorem fromisoformat_isoformat (n : Nat) : fromisoformat (isoformat n) = some n := by
  have hne : toDecimal n ≠ [] := by
    rw [toDecimal]
    cases h : toDecimalAux n n with
    | nil =>
      exfalso
      cases n with
      | zero => simp [toDecimalAux] at h
      | succ m =>
        by_cases h10 : m + 1 < 10
        · simp [toDecimalAux, h10] at h
        · simp [toDecimalAux, h10] at h
    | cons c cs => simp
  obtain ⟨c, cs, hcc⟩ := List.exists_cons_of_ne_nil hne
  have hparse := parse_toDecimalAux n n 0 (le_refl n)
  rw [toDecimal] at hcc
  simp only [fromisoformat, isoformat, toDecimal, hcc]
  rw [hcc] at hparse
  simpa using hparse

/-- Evaluation of `verify_session_token` on a token built by
`create_session_token`, for any claimed identity `b`: provided the
signature contains no separator, verification reduces to the expiry check
followed by the signature comparison. -/
theorem verify_create_eval (mac : String → String → String)
    (secret_key : String) (timeout_hours ts now : Nat) (email b : String)
    (hcolon : ':' ∉ (mac secret_key (email ++ ":" ++ isoformat ts)).data) :
    verify_session_token mac secret_key timeout_hours now b
      (create_session_token mac secret_key ts email) =
      if (now : Int) - ts > timeout_hours * 3600 then false
      else decide (mac secret_key (email ++ ":" ++ isoformat ts) =
        mac secret_key (b ++ ":" ++ isoformat ts)) := by
  have hsplit := splitFirst_append (mac secret_key (email ++ ":" ++ isoformat ts))
    (isoformat ts) hcolon
  simp only [verify_session_token, create_session_token, hsplit,
    fromisoformat_isoformat]

/-- Concrete stand-in for the keyed hash used by the witnesses: escape the
separator and concatenate key and data. -/
def macModel (key data : String) : String :=
  String.mk ((key ++ "," ++ data).data.map (fun c => if c = ':' then ';' else c))

/-- C1: a credential issued by `create_session_token` for identity A fails
`verify_session_token` for any identity B ≠ A (given that the two signed
payloads do not collide under the keyed hash, and that the signature is
separator-free, as a hex digest is), and fails for A itself whenever the
time elapsed since the embedded issuance timestamp exceeds the session
timeout. -/
theorem token_binding_and_expiry (mac : String → String → String)
    (secret_key A B : String) (ts now timeout_hours : Nat)
    (hcolon : ':' ∉ (mac secret_key (A ++ ":" ++ isoformat ts)).data)
    (_hAB : A ≠ B)
    (hmac : mac secret_key (A ++ ":" ++ isoformat ts) ≠
      mac secret_key (B ++ ":" ++ isoformat ts)) :
    verify_session_token mac secret_key timeout_hours now B
      (create_session_token mac secret_key ts A) = false
    ∧ ((now : Int) - ts > timeout_hours * 3600 →
        verify_session_token mac secret_key timeout_hours now A
          (create_session_token mac secret_key ts A) = false) := by
  constructor
  · rw [verify_create_eval mac secret_key timeout_hours ts now A B hcolon]
    split
    · rfl
    · simp [hmac]
  · intro hexp
    rw [verify_create_eval mac secret_key timeout_hours ts now A A hcolon,
      if_pos hexp]

/-- Witness for `token_binding_and_expiry` at concrete inputs. -/
theorem token_binding_and_expiry_witness :
    verify_session_token macModel "sk" 0 1 "b@x.com"
      (create_session_token macModel "sk" 0 "a@x.com") = false
    ∧ verify_session_token macModel "sk" 0 1 "a@x.com"
      (create_session_token macModel "sk" 0 "a@x.com") = false :=
  ⟨(token_binding_and_expiry macModel "sk" "a@x.com" "b@x.com" 0 1 0
      (by decide) (by decide) (by decide)).1,
   (token_binding_and_expiry macModel "sk" "a@x.com" "b@x.com" 0 1 0
      (by decide) (by decide) (by decide)).2 (by decide)⟩

/-- C10: round trip — a freshly issued credential verifies for its own
identity while the session timeout has not elapsed (same secret held fixed
between the two calls; the signature is separator-free, as a hex digest
is). -/
theorem token_roundtrip (mac : String → String → String)
    (secret_key email : String) (ts now timeout_hours : Nat)
    (hcolon : ':' ∉ (mac secret_key (email ++ ":" ++ isoformat ts)).data)
    (hfresh : (now : Int) - ts ≤ timeout_hours * 3600) :
    verify_session_token mac secret_key timeout_hours now email
      (create_session_token mac secret_key ts email) = true := by
  rw [verify_create_eval mac secret_key timeout_hours ts now email email hcolon,
    if_neg (by omega)]
  simp

/-- Witness for `token_roundtrip` at concrete inputs. -/
theorem token_roundtrip_witness :
    verify_session_token macModel "sk" 24 100 "a@x.com"
      (create_session_token macModel "sk" 100 "a@x.com") = true :=
  token_roundtrip macModel "sk" "a@x.com" 100 100 24 (by decide) (by decide)

/-- C2: `verify_session_token` is a total boolean function (the model is
total by construction, mirroring the catch-all exception handler), and
every failure mode yields `false`: a credential without the separator, an
unparseable timestamp, an expired timestamp, and a signature mismatch. -/
theorem verify_fails_closed (mac : String → String → String)
    (secret_key : String) (timeout_hours now : Nat) (email token : String) :
    (splitFirst token ':' = none →
      verify_session_token mac secret_key timeout_hours now email token = false)
    ∧ (∀ th ts_str, splitFirst token ':' = some (th, ts_str) →
        fromisoformat ts_str = none →
        verify_session_token mac secret_key timeout_hours now email token = false)
    ∧ (∀ th ts_str t, splitFirst token ':' = some (th, ts_str) →
        fromisoformat ts_str = some t →
        (now : Int) - t > timeout_hours * 3600 →
        verify_session_token mac secret_key timeout_hours now email token = false)
    ∧ (∀ th ts_str t, splitFirst token ':' = some (th, ts_str) →
        fromisoformat ts_str = some t →
        th ≠ mac secret_key (email ++ ":" ++ ts_str) →
        verify_session_token mac secret_key timeout_hours now email token = false) := by
  refine ⟨fun hs => ?_, fun th ts_str hs hp => ?_, fun th ts_str t hs hp hexp => ?_,
    fun th ts_str t hs hp hne => ?_⟩
  · simp [verify_session_token, hs]
  · simp [verify_session_token, hs, hp]
  · simp [verify_session_token, hs, hp, if_pos hexp]
  · simp [verify_session_token, hs, hp, hne]

/-- Witness for `verify_fails_closed`: a credential with no separator is
rejected. -/
theorem verify_fails_closed_witness :
    verify_session_token macModel "sk" 24 100 "a@x.com" "garbage" = false :=
  (verify_fails_closed macModel "sk" 24 100 "a@x.com" "garbage").1 (by decide)

/-- C3: with `max_requests = N` and `N` still-fresh recorded timestamps,
the next admission attempt inside the window is rejected, emits a
`RATE_LIMIT_EXCEEDED` audit event and leaves the persisted store (hence
the identity's timestamp list) unchanged; the same attempt made once the
window has elapsed since the oldest recorded timestamp is admitted and
appends the current timestamp. -/
theorem rate_limit_window (now later : Int) (email : String) (N wmin : Nat)
    (rd : RateData)
    (hfresh : ∀ r ∈ alGetD rd email [], now - wmin * 60 < r)
    (hlen : (alGetD rd email []).length = N) :
    check_rate_limit now email N wmin rd = (false, rd, [⟨"RATE_LIMIT_EXCEEDED", email⟩])
    ∧ (∀ t, (alGetD rd email []).head? = some t → t ≤ later - wmin * 60 →
        (check_rate_limit later email N wmin rd).1 = true
        ∧ alGetD (check_rate_limit later email N wmin rd).2.1 email [] =
            (alGetD rd email []).filter (fun r => later - wmin * 60 < r) ++ [later]) := by
  constructor
  · have hfilter : (alGetD rd email []).filter (fun req => decide (now - wmin * 60 < req)) =
        alGetD rd email [] := by
      rw [List.filter_eq_self]
      intro a ha
      exact decide_eq_true (hfresh a ha)
    simp only [check_rate_limit, hfilter, hlen, le_refl, if_pos]
  · intro t hhead hold
    cases hl : alGetD rd email [] with
    | nil => rw [hl] at hhead; simp at hhead
    | cons x rest =>
      rw [hl] at hhead
      simp only [List.head?_cons, Option.some.injEq] at hhead
      subst hhead
      have hx : decide (later - wmin * 60 < x) = false := by
        simp only [decide_eq_false_iff_not, not_lt]
        exact hold
      have hflen : ((x :: rest).filter (fun req => decide (later - wmin * 60 < req))).length < N := by
        rw [List.filter_cons, hx]
        simp only [if_neg Bool.false_ne_true]
        calc (rest.filter (fun req => decide (later - wmin * 60 < req))).length
            ≤ rest.length := List.length_filter_le _ _
          _ < N := by rw [hl] at hlen; simp at hlen; omega
      have hnot : ¬ N ≤ ((alGetD rd email []).filter
          (fun req => decide (later - wmin * 60 < req))).length := by
        rw [hl]; omega
      constructor
      · simp only [check_rate_limit, if_neg hnot]
      · simp only [check_rate_limit, if_neg hnot, alGetD_alSet_self]
        rw [hl]

/-- Witness for `rate_limit_window` at concrete inputs: two fresh
timestamps with a limit of two reject a third attempt at time 1000, and
admit it at time 4200 once the hour window has passed the oldest entry. -/
theorem rate_limit_window_witness :
    check_rate_limit 1000 "a@x.com" 2 60 [("a@x.com", [500, 600])] =
      (false, [("a@x.com", [500, 600])], [⟨"RATE_LIMIT_EXCEEDED", "a@x.com"⟩])
    ∧ (check_rate_limit 4200 "a@x.com" 2 60 [("a@x.com", [500, 600])]).1 = true
    ∧ alGetD (check_rate_limit 4200 "a@x.com" 2 60 [("a@x.com", [500, 600])]).2.1 "a@x.com" [] =
        ([500, 600] : List Int).filter (fun r => (4200 : Int) - 60 * 60 < r) ++ [4200] := by
  have h := rate_limit_window 1000 4200 "a@x.com" 2 60 [("a@x.com", [500, 600])]
    (by decide) (by decide)
  exact ⟨h.1, (h.2 500 (by decide) (by decide)).1, (h.2 500 (by decide) (by decide)).2⟩

theorem record_count_self (d : Nat) (email : String) (store : UsageStore) :
    alGetD (alGetD ((record_cover_letter_generation d email store).2) d []) email 0 =
      alGetD (alGetD store d []) email 0 + 1 := by
  simp [record_cover_letter_generation, alGetD_alSet_self]

theorem record_other_date (d d2 : Nat) (email : String) (store : UsageStore)
    (h : d2 ≠ d) :
    alGetD ((record_cover_letter_generation d email store).2) d2 [] =
      alGetD store d2 [] := by
  simp [record_cover_letter_generation, alGetD_alSet_ne _ _ _ _ _ h]

theorem record_iterate_count (d : Nat) (email : String) (K : Nat) (store : UsageStore) :
    alGetD (alGetD (((fun s => (record_cover_letter_generation d email s).2)^[K]) store) d [])
      email 0 = alGetD (alGetD store d []) email 0 + K := by
  induction K generalizing store with
  | zero => simp
  | succ k ih =>
    rw [Function.iterate_succ_apply, ih, record_count_self]
    omega

theorem record_iterate_other (d d2 : Nat) (email : String) (K : Nat) (store : UsageStore)
    (h : d2 ≠ d) :
    alGetD (((fun s => (record_cover_letter_generation d email s).2)^[K]) store) d2 [] =
      alGetD store d2 [] := by
  induction K generalizing store with
  | zero => simp
  | succ k ih => rw [Function.iterate_succ_apply, ih, record_other_date _ _ _ _ h]

theorem check_used_today (d : Nat) (email : String) (limit : Nat) (store : UsageStore) :
    (check_daily_cover_letter_limit d email limit store).1.used_today =
      alGetD (alGetD store d []) email 0 := by
  simp [check_daily_cover_letter_limit, truncate_usage, alGetD, alGet]

theorem check_remaining (d : Nat) (email : String) (limit : Nat) (store : UsageStore) :
    (check_daily_cover_letter_limit d email limit store).1.remaining =
      max 0 (limit - alGetD (alGetD store d []) email 0) := by
  simp [check_daily_cover_letter_limit, truncate_usage, alGetD, alGet]

/-- C4: starting from a store in which the identity has no count recorded
for day `d` or day `d + 1`, recording `K` generations on day `d` makes the
quota status for day `d` report `used_today = K` and
`remaining = max(0, limit - K)`, while the status for the following
calendar date reports `used_today = 0` regardless of day `d`'s count. -/
theorem daily_quota_counts (store : UsageStore) (d : Nat) (email : String)
    (limit K : Nat)
    (h0 : alGetD (alGetD store d []) email 0 = 0)
    (h1 : alGetD (alGetD store (d + 1) []) email 0 = 0) :
    (check_daily_cover_letter_limit d email limit
        (((fun s => (record_cover_letter_generation d email s).2)^[K]) store)).1.used_today = K
    ∧ (check_daily_cover_letter_limit d email limit
        (((fun s => (record_cover_letter_generation d email s).2)^[K]) store)).1.remaining =
        max 0 (limit - K)
    ∧ (check_daily_cover_letter_limit (d + 1) email limit
        (((fun s => (record_cover_letter_generation d email s).2)^[K]) store)).1.used_today = 0 := by
  have hcount := record_iterate_count d email K store
  rw [h0, Nat.zero_add] at hcount
  refine ⟨?_, ?_, ?_⟩
  · rw [check_used_today, hcount]
  · rw [check_remaining, hcount]
  · rw [check_used_today, record_iterate_other d (d + 1) email K store (by omega), h1]

/-- Witness for `daily_quota_counts`: one recorded generation on day 0
against an empty store yields `used_today = 1`, `remaining = 4` of the
default limit 5, and `used_today = 0` on day 1. -/
theorem daily_quota_counts_witness :
    (check_daily_cover_letter_limit 0 "a@x.com" 5
        (((fun s => (record_cover_letter_generation 0 "a@x.com" s).2)^[1]) [])).1.used_today = 1
    ∧ (check_daily_cover_letter_limit 0 "a@x.com" 5
        (((fun s => (record_cover_letter_generation 0 "a@x.com" s).2)^[1]) [])).1.remaining =
        max 0 (5 - 1)
    ∧ (check_daily_cover_letter_limit 1 "a@x.com" 5
        (((fun s => (record_cover_letter_generation 0 "a@x.com" s).2)^[1]) [])).1.used_today = 0 :=
  daily_quota_counts [] 0 "a@x.com" 5 1 (by decide) (by decide)

/-- C5 (counterexample): the quota status read does not rewrite the
persisted store; with a store holding day 9 alongside day 10, after a
status read on day 10 the stored document still holds the foreign date
key 9. -/
theorem quota_read_keeps_old_dates :
    ¬ (∀ p ∈ (check_daily_cover_letter_limit 10 "a@x.com" 5
        [(9, [("a@x.com", 3)]), (10, [("a@x.com", 2)])]).2, p.1 = 10) := by
  decide

/-- C5 (amended): the truncation to the current date happens only on the
in-memory copy that the status read computes over — that copy holds no
date key other than today's — while the persisted store is returned
unchanged by the read. -/
theorem quota_read_truncates_in_memory_only (d : Nat) (email : String)
    (limit : Nat) (store : UsageStore) :
    (∀ p ∈ truncate_usage d store, p.1 = d)
    ∧ (check_daily_cover_letter_limit d email limit store).2 = store := by
  constructor
  · intro p hp
    rcases List.mem_singleton.mp hp with rfl
    rfl
  · rfl

/-- Witness for `quota_read_truncates_in_memory_only` at concrete inputs. -/
theorem quota_read_truncates_witness :
    (∀ p ∈ truncate_usage 10 [(9, [("a@x.com", 3)])], p.1 = 10)
    ∧ (check_daily_cover_letter_limit 10 "a@x.com" 5 [(9, [("a@x.com", 3)])]).2 =
        [(9, [("a@x.com", 3)])] :=
  quota_read_truncates_in_memory_only 10 "a@x.com" 5 [(9, [("a@x.com", 3)])]

theorem foldl_highlights_fields (hs : List String) (p : UserPreferences) :
    (hs.foldl (fun p highlight =>
        if highlight ∈ p.preferred_highlights then p
        else { p with preferred_highlights := p.preferred_highlights ++ [highlight] })
      p).commonly_removed_words = p.commonly_removed_words
    ∧ (hs.foldl (fun p highlight =>
        if highlight ∈ p.preferred_highlights then p
        else { p with preferred_highlights := p.preferred_highlights ++ [highlight] })
      p).commonly_added_phrases = p.commonly_added_phrases
    ∧ (hs.foldl (fun p highlight =>
        if highlight ∈ p.preferred_highlights then p
        else { p with preferred_highlights := p.preferred_highlights ++ [highlight] })
      p).job_application_history = p.job_application_history
    ∧ (hs.foldl (fun p highlight =>
        if highlight ∈ p.preferred_highlights then p
        else { p with preferred_highlights := p.preferred_highlights ++ [highlight] })
      p).usage_count = p.usage_count := by
  induction hs generalizing p with
  | nil => exact ⟨rfl, rfl, rfl, rfl⟩
  | cons h t ih =>
    simp only [List.foldl_cons]
    by_cases hmem : h ∈ p.preferred_highlights
    · rw [if_pos hmem]
      exact ih p
    · rw [if_neg hmem]
      exact ih _

/-- C6 (amended): after a merge, `commonly_removed_words` and
`commonly_added_phrases` hold at most 50 entries whenever they were within
the cap beforehand (a run of the diff re-caps them outright), and
`job_application_history` is exactly the most recent 20 entries of the old
history plus the new entry — oldest evicted first — hence never exceeds
20. `preferred_highlights` carries no such cap (see the counterexample). -/
theorem merge_caps (now : Nat) (session_id : String) (highlights : List String)
    (original_letter edited_letter job_description : String) (p : UserPreferences)
    (hrem : p.commonly_removed_words.length ≤ 50)
    (hadd : p.commonly_added_phrases.length ≤ 50) :
    (update_user_preferences_with_session_data now session_id highlights
        original_letter edited_letter job_description p).commonly_removed_words.length ≤ 50
    ∧ (update_user_preferences_with_session_data now session_id highlights
        original_letter edited_letter job_description p).commonly_added_phrases.length ≤ 50
    ∧ (update_user_preferences_with_session_data now session_id highlights
        original_letter edited_letter job_description p).job_application_history =
        takeLast 20 (p.job_application_history ++
          [mkJobEntry now session_id highlights job_description])
    ∧ (update_user_preferences_with_session_data now session_id highlights
        original_letter edited_letter job_description p).job_application_history.length ≤ 20 := by
  obtain ⟨hf1, hf2, hf3, hf4⟩ := foldl_highlights_fields highlights p
  simp only [update_user_preferences_with_session_data]
  by_cases hd : original_letter ≠ "" ∧ edited_letter ≠ "" ∧ original_letter ≠ edited_letter
  · rw [if_pos hd]
    refine ⟨?_, ?_, ?_, ?_⟩
    · exact le_trans (List.Sublist.length_le (List.dedup_sublist _)) (takeLast_length_le _ _)
    · exact le_trans (List.Sublist.length_le (List.dedup_sublist _)) (takeLast_length_le _ _)
    · rw [hf3]
    · rw [hf3]; exact takeLast_length_le _ _
  · rw [if_neg hd]
    refine ⟨?_, ?_, ?_, ?_⟩
    · rw [hf1]; exact hrem
    · rw [hf2]; exact hadd
    · rw [hf3]
    · rw [hf3]; exact takeLast_length_le _ _

/-- Witness for `merge_caps` at concrete inputs. -/
theorem merge_caps_witness :
    (update_user_preferences_with_session_data 0 "s" ["h1"] "a b c" "a c" "jd"
        get_default_user_preferences).commonly_removed_words.length ≤ 50
    ∧ (update_user_preferences_with_session_data 0 "s" ["h1"] "a b c" "a c" "jd"
        get_default_user_preferences).commonly_added_phrases.length ≤ 50
    ∧ (update_user_preferences_with_session_data 0 "s" ["h1"] "a b c" "a c" "jd"
        get_default_user_preferences).job_application_history =
        takeLast 20 (get_default_user_preferences.job_application_history ++
          [mkJobEntry 0 "s" ["h1"] "jd"])
    ∧ (update_user_preferences_with_session_data 0 "s" ["h1"] "a b c" "a c" "jd"
        get_default_user_preferences).job_application_history.length ≤ 20 :=
  merge_caps 0 "s" ["h1"] "a b c" "a c" "jd" get_default_user_preferences
    (by decide) (by decide)

set_option maxRecDepth 10000

/-- C6 (counterexample): `preferred_highlights` is not capped at 50 — a
single merge supplying 51 distinct highlights to a fresh profile leaves
51 entries in `preferred_highlights`. -/
theorem preferred_highlights_uncapped :
    50 < (update_user_preferences_with_session_data 0 "s"
        ((List.range 51).map (fun n => toString n)) "" "" "jd"
        get_default_user_preferences).preferred_highlights.length := by
  decide

/-- C7 (amended): when the original and edited texts are identical, or
either is empty, no diff is computed — the removed-word and added-phrase
lists are unchanged, and so are the preferred highlights when no new
highlights are supplied — but the history entry is still appended and the
usage count is still incremented by one. -/
theorem trivial_edit_updates (now : Nat) (session_id : String)
    (highlights : List String) (original_letter edited_letter job_description : String)
    (p : UserPreferences)
    (h : original_letter = edited_letter ∨ original_letter = "" ∨ edited_letter = "") :
    (update_user_preferences_with_session_data now session_id highlights
        original_letter edited_letter job_description p).commonly_removed_words =
        p.commonly_removed_words
    ∧ (update_user_preferences_with_session_data now session_id highlights
        original_letter edited_letter job_description p).commonly_added_phrases =
        p.commonly_added_phrases
    ∧ (highlights = [] →
        (update_user_preferences_with_session_data now session_id highlights
          original_letter edited_letter job_description p).preferred_highlights =
          p.preferred_highlights)
    ∧ (update_user_preferences_with_session_data now session_id highlights
        original_letter edited_letter job_description p).usage_count = p.usage_count + 1
    ∧ (update_user_preferences_with_session_data now session_id highlights
        original_letter edited_letter job_description p).job_application_history =
        takeLast 20 (p.job_application_history ++
          [mkJobEntry now session_id highlights job_description]) := by
  obtain ⟨hf1, hf2, hf3, hf4⟩ := foldl_highlights_fields highlights p
  have hd : ¬ (original_letter ≠ "" ∧ edited_letter ≠ "" ∧ original_letter ≠ edited_letter) := by
    rcases h with h | h | h <;> simp [h]
  simp only [update_user_preferences_with_session_data, if_neg hd]
  refine ⟨hf1, hf2, fun hh => ?_, by rw [hf4], by rw [hf3]⟩
  subst hh
  rfl

/-- Witness for `trivial_edit_updates` at concrete inputs. -/
theorem trivial_edit_updates_witness :
    (update_user_preferences_with_session_data 0 "s" [] "x" "x" "jd"
        get_default_user_preferences).commonly_removed_words =
        get_default_user_preferences.commonly_removed_words
    ∧ (update_user_preferences_with_session_data 0 "s" [] "x" "x" "jd"
        get_default_user_preferences).commonly_added_phrases =
        get_default_user_preferences.commonly_added_phrases
    ∧ ([] = ([] : List String) →
        (update_user_preferences_with_session_data 0 "s" [] "x" "x" "jd"
          get_default_user_preferences).preferred_highlights =
          get_default_user_preferences.preferred_highlights)
    ∧ (update_user_preferences_with_session_data 0 "s" [] "x" "x" "jd"
        get_default_user_preferences).usage_count =
        get_default_user_preferences.usage_count + 1
    ∧ (update_user_preferences_with_session_data 0 "s" [] "x" "x" "jd"
        get_default_user_preferences).job_application_history =
        takeLast 20 (get_default_user_preferences.job_application_history ++
          [mkJobEntry 0 "s" [] "jd"]) :=
  trivial_edit_updates 0 "s" [] "x" "x" "jd" get_default_user_preferences (Or.inl rfl)

/-- C7 (counterexample): the claim that the usage count is unchanged on an
identical-text update is false — the count is incremented
unconditionally. -/
theorem trivial_edit_increments_usage :
    (update_user_preferences_with_session_data 0 "s" [] "x" "x" "jd"
        get_default_user_preferences).usage_count ≠
      get_default_user_preferences.usage_count := by
  decide

/-- C8 (amended): diffing `"a b c"` against `"a x c"` aligns `b` and `x`
as a single `replace` span, so the analysis records the replacement pair
`(b, x)` and contributes nothing to removals or additions. -/
theorem analyze_replace_span :
    analyze_user_edits "a b c" "a x c" =
      { removals := [], additions := [], replacements := [("b", "x")] } := by
  decide

/-- C8 (counterexample): after merging that diff into a fresh profile,
`b` is not among the removed words and `x` is not among the added
phrases — the spec's expectation `removedWords ⊇ {b}`,
`addedPhrases ⊇ {x}` fails. -/
theorem replace_span_not_removed :
    ¬ ("b" ∈ (update_user_preferences_with_session_data 0 "s" [] "a b c" "a x c" "jd"
        get_default_user_preferences).commonly_removed_words)
    ∧ ¬ ("x" ∈ (update_user_preferences_with_session_data 0 "s" [] "a b c" "a x c" "jd"
        get_default_user_preferences).commonly_added_phrases) := by
  decide

/-- C9: `is_user_invited` returns true exactly for emails whose lowercased
form matches some stored key case-insensitively, and returns false for
every email when the backing store is absent or malformed. -/
theorem invited_lookup (store : InvitedStore) (email : String) :
    ((¬ ∃ k ∈ load_invited_users store, pyLower k = pyLower email) →
      is_user_invited store email = false)
    ∧ ((∃ k ∈ load_invited_users store, pyLower k = pyLower email) →
      is_user_invited store email = true)
    ∧ is_user_invited .absent email = false
    ∧ is_user_invited .malformed email = false := by
  have hiff : is_user_invited store email = true ↔
      ∃ k ∈ load_invited_users store, pyLower k = pyLower email := by
    simp [is_user_invited, List.contains_iff_exists_mem_beq, List.mem_map,
      beq_iff_eq, eq_comm]
  refine ⟨fun hne => ?_, fun hex => hiff.mpr hex, rfl, rfl⟩
  rcases Bool.eq_false_or_eq_true (is_user_invited store email) with hb | hb
  · exact absurd (hiff.mp hb) hne
  · exact hb

/-- Witness for `invited_lookup` at concrete inputs: a case-insensitive
match is accepted, and a malformed store rejects everyone. -/
theorem invited_lookup_witness :
    is_user_invited (.parsed ["A@X.com"]) "a@x.COM" = true
    ∧ is_user_invited .malformed "a@x.com" = false :=
  ⟨(invited_lookup (.parsed ["A@X.com"]) "a@x.COM").2.1
      ⟨"A@X.com", by decide, by decide⟩,
   (invited_lookup .malformed "a@x.com").1 (by decide)⟩
